import Mathlib

/-!
Shallow embedding of the TerraQuest hash-chained ledger (`ledger.py`).

The SQLite `blocks` table is modelled as a `List Block` holding the rows in
ascending-height order (the order every query in the source reads them in).
The SHA-256 digest is abstracted as a parameter `H : String → String`; claims
that need collision-freeness take `Function.Injective H` as a hypothesis.
Python `float` values are represented by their `repr` token, since the claims
under study never depend on float arithmetic.
-/

set_option linter.unusedVariables false

namespace TerraQuest

/-- JSON values as produced by the Python code: objects are association lists
in insertion order (Python dicts), floats carried as their repr token. -/
inductive Json : Type where
  | null : Json
  | bool (b : Bool) : Json
  | int (n : Int) : Json
  | flt (r : String) : Json
  | str (s : String) : Json
  | arr (l : List Json) : Json
  | obj (l : List (String × Json)) : Json

/-- Four-hex-digit rendering used by `\uXXXX` escapes (lowercase, like Python). -/
def hex4 (n : Nat) : String :=
  String.mk [Nat.digitChar (n / 4096 % 16), Nat.digitChar (n / 256 % 16),
    Nat.digitChar (n / 16 % 16), Nat.digitChar (n % 16)]

/-- Escape of a single character, following `json.dumps` with its default
`ensure_ascii=True`: printable ASCII other than quote and backslash is kept,
everything else is escaped (`\uXXXX`, surrogate pairs above the BMP). -/
def escapeChar (c : Char) : String :=
  if c = '"' then "\\\""
  else if c = '\\' then "\\\\"
  else if c = '\n' then "\\n"
  else if c = '\t' then "\\t"
  else if c = '\r' then "\\r"
  else if c = '\x08' then "\\b"
  else if c = '\x0c' then "\\f"
  else if c.toNat < 0x20 ∨ 0x7e < c.toNat then
    if c.toNat ≤ 0xffff then "\\u" ++ hex4 c.toNat
    else
      "\\u" ++ hex4 (0xd800 + (c.toNat - 0x10000) / 0x400) ++
      "\\u" ++ hex4 (0xdc00 + (c.toNat - 0x10000) % 0x400)
  else String.singleton c

/-- JSON string literal encoding. -/
def encStr (s : String) : String :=
  "\"" ++ String.join (s.data.map escapeChar) ++ "\""

/-- Lexicographic (code-point) order on character lists, the order Python
compares `str` keys with under `sort_keys=True`. -/
def charListLe : List Char → List Char → Bool
  | [], _ => true
  | _ :: _, [] => false
  | a :: as, b :: bs => if a < b then true else if b < a then false else charListLe as bs

/-- Code-point order on strings. -/
def keyLe (a b : String) : Bool :=
  charListLe a.data b.data

/-- Sorted insertion of a `(key, rendered entry)` pair, by key. -/
def insertKeyed (p : String × String) : List (String × String) → List (String × String)
  | [] => [p]
  | q :: t => if keyLe p.1 q.1 then p :: q :: t else q :: insertKeyed p t

/-- Sort rendered object entries by raw key (the `sort_keys=True` of
`json.dumps`; Python compares strings by code point, as Lean does). -/
def sortKeyed : List (String × String) → List (String × String)
  | [] => []
  | p :: t => insertKeyed p (sortKeyed t)

mutual

/-- `json.dumps(obj, separators=(",", ":"), sort_keys=True)`: no insignificant
whitespace, object keys sorted at every nesting level. -/
def canonicalJsonStr : Json → String
  | .null => "null"
  | .bool b => if b then "true" else "false"
  | .int n => toString n
  | .flt r => r
  | .str s => encStr s
  | .arr l => "[" ++ String.intercalate "," (encList l) ++ "]"
  | .obj l =>
    "\x7b" ++ String.intercalate "," ((sortKeyed (encPairs l)).map Prod.snd) ++ "\x7d"
termination_by structural j => j

/-- Renders each array element. -/
def encList : List Json → List String
  | [] => []
  | j :: t => canonicalJsonStr j :: encList t
termination_by structural l => l

/-- Renders each object entry as `(raw key, "key":value)`, keeping the raw key
for sorting. -/
def encPairs : List (String × Json) → List (String × String)
  | [] => []
  | (k, v) :: t => (k, encStr k ++ ":" ++ canonicalJsonStr v) :: encPairs t
termination_by structural l => l

end

/-- `_canonical_json` from `ledger.py`. -/
def _canonical_json (obj : Json) : String :=
  canonicalJsonStr obj

/-- Pre-hash message of `_hash_block`: the f-string
`f"{height}|{ts}|{prev_hash}|{event_type}|{payload_json}"`. -/
def hashMsg (height ts : Nat) (prev_hash event_type payload_json : String) : String :=
  toString height ++ "|" ++ toString ts ++ "|" ++ prev_hash ++ "|" ++
    event_type ++ "|" ++ payload_json

/-- `_hash_block` from `ledger.py`, with the SHA-256 hex digest abstracted as
`H`. -/
def _hash_block (H : String → String) (height ts : Nat)
    (prev_hash event_type payload_json : String) : String :=
  H (hashMsg height ts prev_hash event_type payload_json)

/-- `GENESIS_PREV_HASH = "0" * 64`. -/
def GENESIS_PREV_HASH : String :=
  String.mk (List.replicate 64 '0')

/-- One row of the `blocks` table. -/
structure Block : Type where
  height : Nat
  ts : Nat
  prev_hash : String
  hash : String
  event_type : String
  payload_json : String
deriving DecidableEq, Repr

/-- Pre-hash message of a stored block's fields. -/
def blockMsg (b : Block) : String :=
  hashMsg b.height b.ts b.prev_hash b.event_type b.payload_json

/-- The store: the rows of `blocks` in ascending-height order. -/
abbrev Store := List Block

/-- `init_db`: creates an empty `blocks` table. -/
def init_db : Store := []

/-- Python `d[k] = v` on a dict modelled as an insertion-ordered association
list: replace the binding in place if the key is present, append otherwise. -/
def dictSet (l : List (String × Json)) (k : String) (v : Json) :
    List (String × Json) :=
  if l.any (fun p => p.1 == k) then
    l.map (fun p => if p.1 == k then (k, v) else p)
  else l ++ [(k, v)]

/-- `ensure_genesis`: if no block of height 0 exists, insert the genesis block
(timestamp is the caller-observed clock). -/
def genesisPayload : Json :=
  .obj [("event_type", .str "genesis"), ("version", .int 1),
        ("note", .str "TerraQuest Ledger v1")]

/-- The genesis block built by `ensure_genesis` at clock reading `ts`. -/
def genesisBlock (H : String → String) (ts : Nat) : Block :=
  { height := 0, ts := ts, prev_hash := GENESIS_PREV_HASH,
    hash := _hash_block H 0 ts GENESIS_PREV_HASH "genesis"
      (_canonical_json genesisPayload),
    event_type := "genesis", payload_json := _canonical_json genesisPayload }

/-- `ensure_genesis` from `ledger.py`. A height-0 row sorts before every other
height, so the insert lands at the head of the ascending-order row list. -/
def ensure_genesis (H : String → String) (ts : Nat) (store : Store) : Store :=
  if store.any (fun b => b.height == 0) then store
  else genesisBlock H ts :: store

/-- `_get_tip`: the row of greatest height (`ORDER BY height DESC LIMIT 1`),
or the `RuntimeError` message on an empty store. -/
def _get_tip (store : Store) : Except String Block :=
  match store.getLast? with
  | none => .error "Ledger is empty. Call init_db() and ensure_genesis()."
  | some b => .ok b

/-- The receipt dict returned by `_append`. -/
structure AppendReceipt : Type where
  height : Nat
  ts : Nat
  prev_hash : String
  hash : String
  event_type : String
deriving DecidableEq, Repr

/-- `_append` from `ledger.py`, in state-passing form: the returned store is
the table after the call (unchanged when `_get_tip` raises). The caller's
payload dict is first copied, then stamped with `event_type` and `version`. -/
def _append (H : String → String) (event_type : String)
    (payload : List (String × Json)) (ts : Nat) (store : Store) :
    Store × Except String AppendReceipt :=
  let stamped := dictSet (dictSet payload "event_type" (.str event_type))
    "version" (.int 1)
  let payload_json := _canonical_json (.obj stamped)
  match _get_tip store with
  | .error e => (store, .error e)
  | .ok tip =>
    let height := tip.height + 1
    let block_hash := _hash_block H height ts tip.hash event_type payload_json
    (store ++ [{ height := height, ts := ts, prev_hash := tip.hash,
                 hash := block_hash, event_type := event_type,
                 payload_json := payload_json }],
     .ok { height := height, ts := ts, prev_hash := tip.hash,
           hash := block_hash, event_type := event_type })

/-- The payload such as `_append` stores it (and hashes it into the block). -/
def stampedPayload (event_type : String) (payload : List (String × Json)) :
    List (String × Json) :=
  dictSet (dictSet payload "event_type" (.str event_type)) "version" (.int 1)

/-- A Python value as passed to `add_activity`: the cases `isinstance`
distinguishes there. Floats are carried as their repr token. -/
inductive PyVal : Type where
  | str (s : String) : PyVal
  | int (n : Int) : PyVal
  | flt (r : String) : PyVal
  | none : PyVal
deriving DecidableEq, Repr

/-- `isinstance(x, str) and x.strip()`: a string, non-empty after trimming. -/
def isNonEmptyStr : PyVal → Bool
  | .str s => !(s.trim == "")
  | _ => false

/-- `isinstance(points, int) and points >= 0`. -/
def isNonNegInt : PyVal → Bool
  | .int n => decide (0 ≤ n)
  | _ => false

/-- `isinstance(x, int) or isinstance(x, float)`. -/
def isNumeric : PyVal → Bool
  | .int _ => true
  | .flt _ => true
  | _ => false

/-- `str.strip()` on a validated string value. -/
def pyStrip : PyVal → String
  | .str s => s.trim
  | _ => ""

/-- `float(x)` on a validated numeric value, as a repr token. -/
def pyToFloat : PyVal → String
  | .int n => toString n ++ ".0"
  | .flt r => r
  | _ => ""

/-- `int(x)` on a validated int value. -/
def pyToInt : PyVal → Int
  | .int n => n
  | _ => 0

/-- The activity payload built by `add_activity` once validation passed. -/
def activityPayload (uuid : String) (name description user_who_posted : PyVal)
    (difficulty_rating points : PyVal) (time_posted : Int) :
    List (String × Json) :=
  [("activity", .obj
    [("id", .str uuid),
     ("name", .str (pyStrip name)),
     ("description", .str (pyStrip description)),
     ("time_posted", .int time_posted),
     ("user_who_posted", .str (pyStrip user_who_posted)),
     ("difficulty_rating", .flt (pyToFloat difficulty_rating)),
     ("points", .int (pyToInt points))])]

/-- `add_activity` from `ledger.py`, in state-passing form. `uuid` is the
fresh identifier drawn from `uuid.uuid4()` and `now` the clock reading; the
five user fields keep their Python dynamic types. On a `ValueError` the
store is returned unchanged. -/
def add_activity (H : String → String) (name description user_who_posted : PyVal)
    (difficulty_rating : PyVal) (points : PyVal) (time_posted : Option Int)
    (uuid : String) (now : Nat) (store : Store) :
    Store × Except String AppendReceipt :=
  if !isNonEmptyStr name then (store, .error "name is required")
  else if !isNonEmptyStr description then (store, .error "description is required")
  else if !isNonEmptyStr user_who_posted then
    (store, .error "user_who_posted is required")
  else if !isNonNegInt points then
    (store, .error "points must be a non-negative int")
  else if !isNumeric difficulty_rating then
    (store, .error "difficulty_rating must be a number")
  else
    let tp : Int := match time_posted with
      | Option.none => (now : Int)
      | some t => t
    _append H "activity_submission"
      (activityPayload uuid name description user_who_posted difficulty_rating
        points tp) now store

/-- `get_activity_events` from `ledger.py`: note the query is
`WHERE event_type = 'activity_submission' ORDER BY height DESC LIMIT 1`.
`json.loads` is abstracted as `loads`. -/
def get_activity_events (loads : String → Json) (store : Store) : List Json :=
  (((store.filter (fun b => b.event_type == "activity_submission")).reverse.take 1).map
    (fun b => loads b.payload_json))

/-- One iteration of the `verify_chain` loop over a row: the genesis-sentinel
or link check (against the stored hash of the row the loop saw before this
one), then the hash recomputation check; `none` when the row passes. -/
def checkBlock (H : String → String) (prevStoredHash : String) (b : Block) :
    Option String :=
  if b.height = 0 then
    if b.prev_hash ≠ GENESIS_PREV_HASH then some "Genesis prev_hash mismatch"
    else if _hash_block H b.height b.ts b.prev_hash b.event_type b.payload_json ≠ b.hash
      then some ("Hash mismatch at height " ++ toString b.height)
    else Option.none
  else
    if b.prev_hash ≠ prevStoredHash then
      some ("Broken link at height " ++ toString b.height)
    else if _hash_block H b.height b.ts b.prev_hash b.event_type b.payload_json ≠ b.hash
      then some ("Hash mismatch at height " ++ toString b.height)
    else Option.none

/-- The `verify_chain` loop from the current row onward, `prevStoredHash`
being the stored hash of the row before the current one. -/
def verifyGo (H : String → String) (prevStoredHash : String) : List Block →
    Bool × Option String
  | [] => (true, Option.none)
  | b :: rest =>
    match checkBlock H prevStoredHash b with
    | some r => (false, some r)
    | Option.none => verifyGo H b.hash rest

/-- `verify_chain` from `ledger.py`. At loop index 0 the source reads
`rows[i - 1]`, i.e. `rows[-1]`: Python indexes the *last* row (the value is
only consulted when that first row's height is nonzero). -/
def verify_chain (H : String → String) (store : Store) : Bool × Option String :=
  match store with
  | [] => (false, some "No blocks found")
  | b :: rest =>
    verifyGo H (((b :: rest).getLast (List.cons_ne_nil b rest)).hash) (b :: rest)

/-- Structural well-formedness of the rows from some point on: heights count
up from `n`, each row links to the hash of the row before it (`prevHash` for
the first one), and each stored hash is the recomputed one. -/
def chainOkFrom (H : String → String) (prevHash : String) (n : Nat) :
    List Block → Bool
  | [] => true
  | b :: rest =>
    b.height == n && b.prev_hash == prevHash && b.hash == H (blockMsg b) &&
      chainOkFrom H b.hash (n + 1) rest

/-- A well-formed stored chain: nonempty, heights `0..tip` in order, genesis
sentinel at height 0, links and hashes intact. Every store reachable through
`init_db` / `ensure_genesis` / `_append` satisfies this. -/
def goodChain (H : String → String) (store : Store) : Prop :=
  store ≠ [] ∧ chainOkFrom H GENESIS_PREV_HASH 0 store = true

theorem chainOkFrom_cons {H : String → String} {ph : String} {n : Nat}
    {b : Block} {rest : List Block} :
    chainOkFrom H ph n (b :: rest) = true ↔
      b.height = n ∧ b.prev_hash = ph ∧ b.hash = H (blockMsg b) ∧
        chainOkFrom H b.hash (n + 1) rest = true := by
  simp [chainOkFrom, Bool.and_eq_true, beq_iff_eq, and_assoc]

theorem hash_block_eq_blockMsg {H : String → String} {b : Block} :
    _hash_block H b.height b.ts b.prev_hash b.event_type b.payload_json =
      H (blockMsg b) :=
  rfl

theorem checkBlock_of_ok {H : String → String} {ph : String} {b : Block}
    (hh : b.height ≠ 0) (hp : b.prev_hash = ph) (hb : b.hash = H (blockMsg b)) :
    checkBlock H ph b = Option.none := by
  have h1 : ¬ b.prev_hash ≠ ph := by simp [hp]
  have h2 : ¬ _hash_block H b.height b.ts b.prev_hash b.event_type
      b.payload_json ≠ b.hash := by simp [hash_block_eq_blockMsg, hb]
  simp only [checkBlock, if_neg hh, if_neg h1, if_neg h2]

theorem checkBlock_of_genesis_ok {H : String → String} {ph : String} {b : Block}
    (hh : b.height = 0) (hp : b.prev_hash = GENESIS_PREV_HASH)
    (hb : b.hash = H (blockMsg b)) :
    checkBlock H ph b = Option.none := by
  have h1 : ¬ b.prev_hash ≠ GENESIS_PREV_HASH := by simp [hp]
  have h2 : ¬ _hash_block H b.height b.ts b.prev_hash b.event_type
      b.payload_json ≠ b.hash := by simp [hash_block_eq_blockMsg, hb]
  simp only [checkBlock, if_pos hh, if_neg h1, if_neg h2]

theorem verifyGo_of_chainOkFrom {H : String → String} :
    ∀ (rest : List Block) (ph : String) (n : Nat), 0 < n →
      chainOkFrom H ph n rest = true → verifyGo H ph rest = (true, Option.none)
  | [], _, _, _, _ => rfl
  | b :: rest, ph, n, hn, hc => by
    obtain ⟨h1, h2, h3, h4⟩ := chainOkFrom_cons.mp hc
    rw [verifyGo, checkBlock_of_ok (h1 ▸ Nat.pos_iff_ne_zero.mp hn) h2 h3]
    exact verifyGo_of_chainOkFrom rest b.hash (n + 1) (Nat.succ_pos n) h4

theorem verify_chain_of_goodChain {H : String → String} {store : Store}
    (hg : goodChain H store) : verify_chain H store = (true, Option.none) := by
  obtain ⟨hne, hc⟩ := hg
  match store with
  | [] => exact absurd rfl hne
  | b :: rest =>
    obtain ⟨h1, h2, h3, h4⟩ := chainOkFrom_cons.mp hc
    rw [verify_chain, verifyGo, checkBlock_of_genesis_ok h1 h2 h3]
    exact verifyGo_of_chainOkFrom rest b.hash 1 Nat.one_pos h4

/-- The stored hash the next appended row must link to: the last row's hash,
or the starting `prevHash` when there is no row. -/
def lastHashD (ph : String) (rows : List Block) : String :=
  match rows.getLast? with
  | Option.none => ph
  | some t => t.hash

theorem lastHashD_cons {ph : String} {b : Block} {rows : List Block} :
    lastHashD ph (b :: rows) = lastHashD b.hash rows := by
  cases rows with
  | nil => rfl
  | cons c t =>
    show (match (b :: c :: t).getLast? with
      | Option.none => ph
      | some x => x.hash) = lastHashD b.hash (c :: t)
    rw [List.getLast?_cons_cons]
    cases h : (c :: t).getLast? with
    | none => simp at h
    | some x => simp [lastHashD, h]

theorem chainOkFrom_snoc {H : String → String} :
    ∀ (rows : List Block) (ph : String) (n : Nat) (b : Block),
      chainOkFrom H ph n (rows ++ [b]) = true ↔
        (chainOkFrom H ph n rows = true ∧ b.height = n + rows.length ∧
          b.prev_hash = lastHashD ph rows ∧ b.hash = H (blockMsg b))
  | [], ph, n, b => by
    rw [List.nil_append, chainOkFrom_cons]
    simp only [chainOkFrom, lastHashD, List.getLast?_nil, List.length_nil,
      Nat.add_zero, and_true, true_and]
  | c :: rows, ph, n, b => by
    simp only [List.cons_append, chainOkFrom_cons,
      chainOkFrom_snoc rows c.hash (n + 1) b, lastHashD_cons, List.length_cons]
    constructor
    · rintro ⟨x1, x2, x3, y1, y2, y3, y4⟩
      exact ⟨⟨x1, x2, x3, y1⟩, by omega, y3, y4⟩
    · rintro ⟨⟨x1, x2, x3, y1⟩, y2, y3, y4⟩
      exact ⟨x1, x2, x3, y1, by omega, y3, y4⟩

theorem chainOkFrom_getLast {H : String → String} :
    ∀ (rows : List Block) (ph : String) (n : Nat) (t : Block),
      chainOkFrom H ph n rows = true → rows.getLast? = some t →
        t.height + 1 = n + rows.length ∧ t.hash = lastHashD ph rows
  | [], _, _, _, _, hl => by simp at hl
  | b :: rows, ph, n, t, hc, hl => by
    obtain ⟨h1, h2, h3, h4⟩ := chainOkFrom_cons.mp hc
    cases rows with
    | nil =>
      have hbt : b = t := by simpa using hl
      subst hbt
      exact ⟨by simp [h1], by simp [lastHashD]⟩
    | cons c rest =>
      rw [List.getLast?_cons_cons] at hl
      have ih := chainOkFrom_getLast (c :: rest) b.hash (n + 1) t h4 hl
      rw [lastHashD_cons]
      refine ⟨?_, ih.2⟩
      have h5 := ih.1
      have hlen : (b :: c :: rest).length = (c :: rest).length + 1 := by simp
      omega

theorem goodChain_append {H : String → String} {store : Store}
    (hg : goodChain H store) (event_type : String)
    (payload : List (String × Json)) (ts : Nat) :
    goodChain H (_append H event_type payload ts store).1 := by
  obtain ⟨hne, hc⟩ := hg
  obtain ⟨t, ht⟩ : ∃ t, store.getLast? = some t := by
    cases h : store.getLast? with
    | none => exact absurd (List.getLast?_eq_none_iff.mp h) hne
    | some t => exact ⟨t, rfl⟩
  obtain ⟨hth, thh⟩ := chainOkFrom_getLast store GENESIS_PREV_HASH 0 t hc ht
  simp only [_append, _get_tip, ht]
  refine ⟨by simp, ?_⟩
  rw [chainOkFrom_snoc]
  refine ⟨hc, by simpa using hth, by simpa using thh, ?_⟩
  rfl

/-- One call made by the claimed append sequences: either a raw typed-event
`_append` or an `add_activity` (which may fail validation and leave the
store unchanged). -/
inductive Op : Type where
  | rawAppend (event_type : String) (payload : List (String × Json)) (ts : Nat) : Op
  | addAct (name description user_who_posted difficulty_rating points : PyVal)
      (time_posted : Option Int) (uuid : String) (now : Nat) : Op

/-- The store after one call. -/
def stepOp (H : String → String) (store : Store) : Op → Store
  | .rawAppend event_type payload ts => (_append H event_type payload ts store).1
  | .addAct name description user_who_posted difficulty_rating points
      time_posted uuid now =>
    (add_activity H name description user_who_posted difficulty_rating points
      time_posted uuid now store).1

theorem goodChain_stepOp {H : String → String} {store : Store}
    (hg : goodChain H store) (op : Op) : goodChain H (stepOp H store op) := by
  cases op with
  | rawAppend event_type payload ts => exact goodChain_append hg _ _ _
  | addAct name description user_who_posted difficulty_rating points
      time_posted uuid now =>
    simp only [stepOp, add_activity]
    repeat' split
    all_goals first
      | exact hg
      | exact goodChain_append hg _ _ _

theorem goodChain_foldl {H : String → String} :
    ∀ (ops : List Op) (store : Store), goodChain H store →
      goodChain H (ops.foldl (stepOp H) store)
  | [], _, hg => hg
  | op :: ops, store, hg =>
    goodChain_foldl ops (stepOp H store op) (goodChain_stepOp hg op)

theorem goodChain_genesis_fresh {H : String → String} (ts : Nat) :
    goodChain H (ensure_genesis H ts init_db) := by
  refine ⟨by simp [ensure_genesis, init_db, genesisBlock], ?_⟩
  simp [ensure_genesis, init_db, genesisBlock, chainOkFrom, blockMsg,
    _hash_block]

/-- C1: starting from a freshly initialized store (`init_db` followed by
`ensure_genesis`), any sequence of successful `_append` / `add_activity`
calls leaves a store on which `verify_chain` returns `(true, none)`. -/
theorem claim_C1_verify_after_appends (H : String → String) (ts0 : Nat)
    (ops : List Op) :
    verify_chain H (ops.foldl (stepOp H) (ensure_genesis H ts0 init_db)) =
      (true, Option.none) :=
  verify_chain_of_goodChain (goodChain_foldl ops _ (goodChain_genesis_fresh ts0))

example : verify_chain (fun s => s) [genesisBlock (fun s => s) 5] =
    (true, Option.none) := by decide

/-- C5 (amended): `ensure_genesis` is idempotent on every store, and on a
store with no height-0 block (in particular a fresh one) it leaves exactly
one block of height 0, whose `prev_hash` is the 64-zero sentinel. On a store
that already held a height-0 block the calls change nothing at all — even
when that block's `prev_hash` is not the sentinel. -/
theorem claim_C5_ensure_genesis_twice (H : String → String) (ts1 ts2 : Nat)
    (store : Store) :
    ensure_genesis H ts2 (ensure_genesis H ts1 store) =
      ensure_genesis H ts1 store ∧
    ((∀ b ∈ store, b.height ≠ 0) →
      (ensure_genesis H ts1 store).countP (fun b => b.height == 0) = 1 ∧
      ∀ b ∈ ensure_genesis H ts1 store, b.height = 0 →
        b.prev_hash = GENESIS_PREV_HASH) := by
  constructor
  · cases h : store.any (fun b => b.height == 0) with
    | true => simp [ensure_genesis, h]
    | false =>
      simp only [ensure_genesis, h, if_neg Bool.false_ne_true, ite_false]
      have : ((genesisBlock H ts1 :: store).any (fun b => b.height == 0)) = true := by
        simp [genesisBlock]
      simp [this]
  · intro hall
    have h : store.any (fun b => b.height == 0) = false := by
      simp only [List.any_eq_false]
      intro b hb
      simpa using hall b hb
    simp only [ensure_genesis, h, ite_false, if_neg Bool.false_ne_true]
    refine ⟨?_, ?_⟩
    · rw [List.countP_cons]
      have h0 : (fun b : Block => b.height == 0) (genesisBlock H ts1) = true := by
        simp [genesisBlock]
      rw [List.countP_eq_zero.mpr ?_]
      · simp [h0]
      · intro b hb
        simpa using hall b hb
    · intro b hb hb0
      rcases List.mem_cons.mp hb with hg | hs
      · subst hg; rfl
      · exact absurd hb0 (hall b hs)

/-- The concrete store used to refute C5 as literally stated: it already
holds a height-0 block whose `prev_hash` is not the sentinel. -/
def preTamperedGenesisStore : Store :=
  [{ height := 0, ts := 0, prev_hash := "", hash := "", event_type := "",
     payload_json := "" }]

/-- C5 counterexample: on a store that already holds a height-0 block with a
non-sentinel `prev_hash`, two `ensure_genesis` calls change nothing, yet the
unique height-0 block does not carry the sentinel — so the claim's "on any
store state" conclusion fails. -/
theorem claim_C5_counterexample :
    ensure_genesis (fun s => s) 1 (ensure_genesis (fun s => s) 0
      preTamperedGenesisStore) = preTamperedGenesisStore ∧
    preTamperedGenesisStore.countP (fun b => b.height == 0) = 1 ∧
    ¬ (∀ b ∈ ensure_genesis (fun s => s) 1 (ensure_genesis (fun s => s) 0
        preTamperedGenesisStore), b.height = 0 →
          b.prev_hash = GENESIS_PREV_HASH) := by
  refine ⟨by decide, by decide, ?_⟩
  intro hall
  have h1 : ensure_genesis (fun s : String => s) 1 (ensure_genesis (fun s => s) 0
      preTamperedGenesisStore) = preTamperedGenesisStore := by decide
  rw [h1] at hall
  have := hall _ (List.mem_singleton.mpr rfl) rfl
  exact absurd this (by decide)

/-- C5 witness: on the fresh store both conjuncts of the amended claim hold
concretely. -/
theorem claim_C5_witness :
    (ensure_genesis (fun s => s) 1 (ensure_genesis (fun s => s) 0 init_db) =
      ensure_genesis (fun s => s) 0 init_db) ∧
    (ensure_genesis (fun s => s) 0 init_db).countP (fun b => b.height == 0) = 1 ∧
    (∀ b ∈ ensure_genesis (fun s => s) 0 init_db, b.height = 0 →
      b.prev_hash = GENESIS_PREV_HASH) :=
  ⟨(claim_C5_ensure_genesis_twice (fun s => s) 0 1 init_db).1,
   (claim_C5_ensure_genesis_twice (fun s => s) 0 1 init_db).2 (by decide)⟩

theorem lookup_append_left {α β : Type} [BEq α] {k : α} {l l' : List (α × β)}
    {v : β} (h : List.lookup k l = some v) :
    List.lookup k (l ++ l') = some v := by
  induction l with
  | nil => simp at h
  | cons p t ih =>
    rw [List.cons_append, List.lookup_cons]
    rw [List.lookup_cons] at h
    cases hk : (k == p.1) with
    | true => simpa [hk] using h
    | false =>
      rw [hk] at h
      simpa [hk] using ih h

theorem lookup_append_right {α β : Type} [BEq α] {k : α} {l l' : List (α × β)}
    (h : List.lookup k l = Option.none) :
    List.lookup k (l ++ l') = List.lookup k l' := by
  induction l with
  | nil => simp
  | cons p t ih =>
    rw [List.cons_append, List.lookup_cons]
    rw [List.lookup_cons] at h
    cases hk : (k == p.1) with
    | true => simp [hk] at h
    | false =>
      rw [hk] at h
      simpa [hk] using ih h

theorem lookup_eq_none_of_no_key {l : List (String × Json)} {k : String}
    (h : l.any (fun p => p.1 == k) = false) :
    List.lookup k l = Option.none := by
  induction l with
  | nil => rfl
  | cons p t ih =>
    rw [List.any_cons, Bool.or_eq_false_iff] at h
    rw [List.lookup_cons]
    have : (k == p.1) = false := by
      cases hk : (k == p.1) with
      | true =>
        have : p.1 = k := by
          have := eq_of_beq hk
          exact this.symm
        rw [this, beq_self_eq_true] at h
        exact absurd h.1 (by simp)
      | false => rfl
    simpa [this] using ih h.2

theorem beq_comm_false {k p : String} (hp : (p == k) = false) :
    (k == p) = false := by
  cases hk : (k == p) with
  | true =>
    have hpk : p = k := (eq_of_beq hk).symm
    subst hpk
    simp at hp
  | false => rfl

theorem lookup_map_overwrite_self {k : String} {v : Json} :
    ∀ (l : List (String × Json)), l.any (fun p => p.1 == k) = true →
      List.lookup k (l.map (fun p => if (p.1 == k) = true then (k, v) else p)) =
        some v
  | [], h => by simp at h
  | p :: t, h => by
    rw [List.map_cons]
    cases hp : (p.1 == k) with
    | true =>
      simp only [hp, ite_true]
      simp [List.lookup_cons]
    | false =>
      rw [List.any_cons, hp, Bool.false_or] at h
      simp only [hp, Bool.false_eq_true, ite_false]
      rw [List.lookup_cons, beq_comm_false hp]
      exact lookup_map_overwrite_self t h

theorem lookup_map_overwrite_ne {k k' : String} {v : Json}
    (hne : (k' == k) = false) :
    ∀ (l : List (String × Json)),
      List.lookup k' (l.map (fun p => if (p.1 == k) = true then (k, v) else p)) =
        List.lookup k' l
  | [] => rfl
  | p :: t => by
    rw [List.map_cons]
    cases hp : (p.1 == k) with
    | true =>
      have hp1 : p.1 = k := eq_of_beq hp
      simp only [hp, ite_true, List.lookup, hp1, hne]
      exact lookup_map_overwrite_ne hne t
    | false =>
      simp only [hp, Bool.false_eq_true, ite_false, List.lookup]
      cases hk : (k' == p.1) with
      | true => simp only [hk]
      | false =>
        simp only [hk]
        exact lookup_map_overwrite_ne hne t

theorem lookup_dictSet_self (l : List (String × Json)) (k : String) (v : Json) :
    List.lookup k (dictSet l k v) = some v := by
  unfold dictSet
  cases h : l.any (fun p => p.1 == k) with
  | false =>
    rw [if_neg (by decide)]
    rw [lookup_append_right (lookup_eq_none_of_no_key h)]
    simp
  | true =>
    rw [if_pos rfl]
    exact lookup_map_overwrite_self l h

theorem lookup_dictSet_ne (l : List (String × Json)) (k k' : String) (v : Json)
    (hne : (k' == k) = false) :
    List.lookup k' (dictSet l k v) = List.lookup k' l := by
  unfold dictSet
  cases h : l.any (fun p => p.1 == k) with
  | false =>
    rw [if_neg (by decide)]
    cases hl : List.lookup k' l with
    | none =>
      rw [lookup_append_right hl]
      simp only [List.lookup, hne]
    | some w => exact lookup_append_left hl
  | true =>
    rw [if_pos rfl]
    exact lookup_map_overwrite_ne hne l

/-- C10: the payload `_append` stores (and hashes into the block) is the
caller's payload with `"event_type"` overwritten to the block's
`event_type` column and `"version"` overwritten to `1`, whatever the caller
supplied under those keys; the caller's dictionary itself is copied first
(`dict(payload)`), never mutated — here the model is pure, and the stored
payload is computed from the copy `stampedPayload event_type payload`. -/
theorem claim_C10_append_stamps_payload (H : String → String)
    (event_type : String) (payload : List (String × Json)) (ts : Nat)
    (store : Store) (hne : store ≠ []) :
    ∃ b : Block,
      (_append H event_type payload ts store).1 = store ++ [b] ∧
      b.event_type = event_type ∧
      b.payload_json = _canonical_json (.obj (stampedPayload event_type payload)) ∧
      List.lookup "event_type" (stampedPayload event_type payload) =
        some (.str event_type) ∧
      List.lookup "version" (stampedPayload event_type payload) =
        some (.int 1) := by
  obtain ⟨t, ht⟩ : ∃ t, store.getLast? = some t := by
    cases h : store.getLast? with
    | none => exact absurd (List.getLast?_eq_none_iff.mp h) hne
    | some t => exact ⟨t, rfl⟩
  have hA : List.lookup "event_type" (stampedPayload event_type payload) =
      some (.str event_type) := by
    unfold stampedPayload
    rw [lookup_dictSet_ne _ _ _ _ (by decide), lookup_dictSet_self]
  have hB : List.lookup "version" (stampedPayload event_type payload) =
      some (.int 1) := by
    unfold stampedPayload
    rw [lookup_dictSet_self]
  refine ⟨Block.mk (t.height + 1) ts t.hash
    (_hash_block H (t.height + 1) ts t.hash event_type
      (_canonical_json (.obj (stampedPayload event_type payload))))
    event_type (_canonical_json (.obj (stampedPayload event_type payload))),
    ?_, rfl, rfl, hA, hB⟩
  simp only [_append, _get_tip, ht]
  rfl

/-- C10 witness: concrete instantiation on a one-block store, with a caller
payload that already (wrongly) binds both reserved keys. -/
theorem claim_C10_witness :
    ∃ b : Block,
      (_append (fun s => s) "activity_submission"
        [("event_type", .str "bogus"), ("version", .int 7)] 3
        preTamperedGenesisStore).1 = preTamperedGenesisStore ++ [b] ∧
      b.event_type = "activity_submission" ∧
      b.payload_json = _canonical_json (.obj (stampedPayload "activity_submission"
        [("event_type", .str "bogus"), ("version", .int 7)])) ∧
      List.lookup "event_type" (stampedPayload "activity_submission"
        [("event_type", .str "bogus"), ("version", .int 7)]) =
        some (.str "activity_submission") ∧
      List.lookup "version" (stampedPayload "activity_submission"
        [("event_type", .str "bogus"), ("version", .int 7)]) = some (.int 1) :=
  claim_C10_append_stamps_payload (fun s => s) "activity_submission"
    [("event_type", .str "bogus"), ("version", .int 7)] 3
    preTamperedGenesisStore (by decide)

theorem add_activity_fail_name {H : String → String}
    {name description user_who_posted difficulty_rating points : PyVal}
    {time_posted : Option Int} {uuid : String} {now : Nat} {store : Store}
    (h : isNonEmptyStr name = false) :
    add_activity H name description user_who_posted difficulty_rating points
      time_posted uuid now store = (store, .error "name is required") := by
  simp [add_activity, h]

theorem add_activity_fail_description {H : String → String}
    {name description user_who_posted difficulty_rating points : PyVal}
    {time_posted : Option Int} {uuid : String} {now : Nat} {store : Store}
    (h1 : isNonEmptyStr name = true) (h : isNonEmptyStr description = false) :
    add_activity H name description user_who_posted difficulty_rating points
      time_posted uuid now store = (store, .error "description is required") := by
  simp [add_activity, h1, h]

theorem add_activity_fail_user {H : String → String}
    {name description user_who_posted difficulty_rating points : PyVal}
    {time_posted : Option Int} {uuid : String} {now : Nat} {store : Store}
    (h1 : isNonEmptyStr name = true) (h2 : isNonEmptyStr description = true)
    (h : isNonEmptyStr user_who_posted = false) :
    add_activity H name description user_who_posted difficulty_rating points
      time_posted uuid now store =
      (store, .error "user_who_posted is required") := by
  simp [add_activity, h1, h2, h]

theorem add_activity_fail_points {H : String → String}
    {name description user_who_posted difficulty_rating points : PyVal}
    {time_posted : Option Int} {uuid : String} {now : Nat} {store : Store}
    (h1 : isNonEmptyStr name = true) (h2 : isNonEmptyStr description = true)
    (h3 : isNonEmptyStr user_who_posted = true) (h : isNonNegInt points = false) :
    add_activity H name description user_who_posted difficulty_rating points
      time_posted uuid now store =
      (store, .error "points must be a non-negative int") := by
  simp [add_activity, h1, h2, h3, h]

theorem add_activity_fail_difficulty {H : String → String}
    {name description user_who_posted difficulty_rating points : PyVal}
    {time_posted : Option Int} {uuid : String} {now : Nat} {store : Store}
    (h1 : isNonEmptyStr name = true) (h2 : isNonEmptyStr description = true)
    (h3 : isNonEmptyStr user_who_posted = true) (h4 : isNonNegInt points = true)
    (h : isNumeric difficulty_rating = false) :
    add_activity H name description user_who_posted difficulty_rating points
      time_posted uuid now store =
      (store, .error "difficulty_rating must be a number") := by
  simp [add_activity, h1, h2, h3, h4, h]

theorem add_activity_success {H : String → String}
    {name description user_who_posted difficulty_rating points : PyVal}
    {time_posted : Option Int} {uuid : String} {now : Nat} {store : Store}
    (h1 : isNonEmptyStr name = true) (h2 : isNonEmptyStr description = true)
    (h3 : isNonEmptyStr user_who_posted = true) (h4 : isNonNegInt points = true)
    (h5 : isNumeric difficulty_rating = true) :
    add_activity H name description user_who_posted difficulty_rating points
      time_posted uuid now store =
      _append H "activity_submission"
        (activityPayload uuid name description user_who_posted difficulty_rating
          points (match time_posted with
            | Option.none => (now : Int)
            | some t => t)) now store := by
  simp [add_activity, h1, h2, h3, h4, h5]

theorem append_error_keeps_store {H : String → String} {event_type : String}
    {payload : List (String × Json)} {ts : Nat} {store : Store} {e : String}
    (h : (_append H event_type payload ts store).2 = .error e) :
    (_append H event_type payload ts store).1 = store ∧
      e = "Ledger is empty. Call init_db() and ensure_genesis()." := by
  unfold _append at h ⊢
  unfold _get_tip at h ⊢
  cases hl : store.getLast? with
  | none =>
    rw [hl] at h
    exact ⟨rfl, by simpa using h.symm⟩
  | some t =>
    rw [hl] at h
    simp at h

/-- C4: `add_activity` fails with a `ValueError` naming the offending field
exactly when one of the five field constraints is violated (checked in
source order: `name`, `description`, `user_who_posted`, `points`,
`difficulty_rating`); on any failure the store is unchanged. The only other
failure is `_get_tip`'s empty-store `RuntimeError`, whose message is not a
validation message. -/
theorem claim_C4_add_activity_validation (H : String → String)
    (name description user_who_posted difficulty_rating points : PyVal)
    (time_posted : Option Int) (uuid : String) (now : Nat) (store : Store) :
    ((∃ e, (add_activity H name description user_who_posted difficulty_rating
        points time_posted uuid now store).2 = .error e ∧
        e ∈ ["name is required", "description is required",
          "user_who_posted is required", "points must be a non-negative int",
          "difficulty_rating must be a number"]) ↔
      (isNonEmptyStr name = false ∨ isNonEmptyStr description = false ∨
        isNonEmptyStr user_who_posted = false ∨ isNonNegInt points = false ∨
        isNumeric difficulty_rating = false)) ∧
    (∀ e, (add_activity H name description user_who_posted difficulty_rating
        points time_posted uuid now store).2 = .error e →
      (add_activity H name description user_who_posted difficulty_rating
        points time_posted uuid now store).1 = store) ∧
    (isNonEmptyStr name = false →
      (add_activity H name description user_who_posted difficulty_rating
        points time_posted uuid now store).2 = .error "name is required") ∧
    (isNonEmptyStr name = true → isNonEmptyStr description = false →
      (add_activity H name description user_who_posted difficulty_rating
        points time_posted uuid now store).2 = .error "description is required") ∧
    (isNonEmptyStr name = true → isNonEmptyStr description = true →
      isNonEmptyStr user_who_posted = false →
      (add_activity H name description user_who_posted difficulty_rating
        points time_posted uuid now store).2 =
        .error "user_who_posted is required") ∧
    (isNonEmptyStr name = true → isNonEmptyStr description = true →
      isNonEmptyStr user_who_posted = true → isNonNegInt points = false →
      (add_activity H name description user_who_posted difficulty_rating
        points time_posted uuid now store).2 =
        .error "points must be a non-negative int") ∧
    (isNonEmptyStr name = true → isNonEmptyStr description = true →
      isNonEmptyStr user_who_posted = true → isNonNegInt points = true →
      isNumeric difficulty_rating = false →
      (add_activity H name description user_who_posted difficulty_rating
        points time_posted uuid now store).2 =
        .error "difficulty_rating must be a number") := by
  cases h1 : isNonEmptyStr name with
  | false =>
    rw [add_activity_fail_name h1]
    refine ⟨⟨fun _ => Or.inl rfl, fun _ => ⟨_, rfl, by decide⟩⟩,
      fun e _ => rfl, fun _ => rfl, ?_, ?_, ?_, ?_⟩ <;> (intros; simp_all)
  | true => cases h2 : isNonEmptyStr description with
    | false =>
      rw [add_activity_fail_description h1 h2]
      refine ⟨⟨fun _ => Or.inr (Or.inl rfl), fun _ => ⟨_, rfl, by decide⟩⟩,
        fun e _ => rfl, ?_, fun _ _ => rfl, ?_, ?_, ?_⟩ <;> (intros; simp_all)
    | true => cases h3 : isNonEmptyStr user_who_posted with
      | false =>
        rw [add_activity_fail_user h1 h2 h3]
        refine ⟨⟨fun _ => Or.inr (Or.inr (Or.inl rfl)),
          fun _ => ⟨_, rfl, by decide⟩⟩,
          fun e _ => rfl, ?_, ?_, fun _ _ _ => rfl, ?_, ?_⟩ <;> (intros; simp_all)
      | true => cases h4 : isNonNegInt points with
        | false =>
          rw [add_activity_fail_points h1 h2 h3 h4]
          refine ⟨⟨fun _ => Or.inr (Or.inr (Or.inr (Or.inl rfl))),
            fun _ => ⟨_, rfl, by decide⟩⟩,
            fun e _ => rfl, ?_, ?_, ?_, fun _ _ _ _ => rfl, ?_⟩ <;>
            (intros; simp_all)
        | true => cases h5 : isNumeric difficulty_rating with
          | false =>
            rw [add_activity_fail_difficulty h1 h2 h3 h4 h5]
            refine ⟨⟨fun _ => Or.inr (Or.inr (Or.inr (Or.inr rfl))),
              fun _ => ⟨_, rfl, by decide⟩⟩,
              fun e _ => rfl, ?_, ?_, ?_, ?_, fun _ _ _ _ _ => rfl⟩ <;>
              (intros; simp_all)
          | true =>
            rw [add_activity_success h1 h2 h3 h4 h5]
            refine ⟨⟨?_, ?_⟩,
              fun e he => (append_error_keeps_store he).1, ?_, ?_, ?_, ?_, ?_⟩
            · rintro ⟨e, he, hmem⟩
              have he2 := (append_error_keeps_store he).2
              subst he2
              exact absurd hmem (by decide)
            · rintro (h | h | h | h | h) <;> exact absurd h (by decide)
            all_goals (intros; simp_all)

/-- A plausible stored chain for exercising the query helpers: one genesis
row and two activity rows at heights 1 and 2. -/
def demoGenesis : Block :=
  { height := 0, ts := 0, prev_hash := GENESIS_PREV_HASH, hash := "h0",
    event_type := "genesis", payload_json := "pg" }

/-- Height-1 activity row of the demo store. -/
def demoActivity1 : Block :=
  { height := 1, ts := 1, prev_hash := "h0", hash := "h1",
    event_type := "activity_submission", payload_json := "pay1" }

/-- Height-2 activity row of the demo store. -/
def demoActivity2 : Block :=
  { height := 2, ts := 2, prev_hash := "h1", hash := "h2",
    event_type := "activity_submission", payload_json := "pay2" }

/-- C3: what the code actually does. On a store holding two
`activity_submission` rows, `get_activity_events` returns a single decoded
payload — the one of greatest height (`ORDER BY height DESC LIMIT 1`) —
although its own docstring promises the payloads of *all*
`activity_submission` events and the spec's `scanByEventType` reads them in
ascending height order. -/
theorem claim_C3_code_returns_only_latest :
    get_activity_events Json.str [demoGenesis, demoActivity1, demoActivity2] =
      [Json.str "pay2"] ∧
    ([demoGenesis, demoActivity1, demoActivity2].filter
      (fun b => b.event_type == "activity_submission")).length = 2 :=
  ⟨rfl, rfl⟩

theorem checkBlock_forms {H : String → String} {ph : String} {b : Block}
    {r : String} (h : checkBlock H ph b = some r) :
    r = ("Hash mismatch at height " ++ toString b.height) ∨
    r = ("Broken link at height " ++ toString b.height) ∨
    (b.height = 0 ∧ r = "Genesis prev_hash mismatch") := by
  unfold checkBlock at h
  split_ifs at h <;> simp_all

theorem verifyGo_result (H : String → String) :
    ∀ (rows : List Block) (ph : String),
      verifyGo H ph rows = (true, Option.none) ∨
      ∃ b ∈ rows,
        verifyGo H ph rows =
          (false, some ("Hash mismatch at height " ++ toString b.height)) ∨
        verifyGo H ph rows =
          (false, some ("Broken link at height " ++ toString b.height)) ∨
        (b.height = 0 ∧
          verifyGo H ph rows = (false, some "Genesis prev_hash mismatch"))
  | [], ph => Or.inl rfl
  | b :: rest, ph => by
    cases hc : checkBlock H ph b with
    | some r =>
      have hv : verifyGo H ph (b :: rest) = (false, some r) := by
        rw [verifyGo, hc]
      refine Or.inr ⟨b, List.mem_cons_self b rest, ?_⟩
      rcases checkBlock_forms hc with h | h | ⟨h0, h⟩
      · exact Or.inl (h ▸ hv)
      · exact Or.inr (Or.inl (h ▸ hv))
      · exact Or.inr (Or.inr ⟨h0, h ▸ hv⟩)
    | none =>
      have hv : verifyGo H ph (b :: rest) = verifyGo H b.hash rest := by
        rw [verifyGo, hc]
      rcases verifyGo_result H rest b.hash with h | ⟨c, hmem, hforms⟩
      · exact Or.inl (hv.trans h)
      · refine Or.inr ⟨c, List.mem_cons_of_mem b hmem, ?_⟩
        rcases hforms with h | h | ⟨h0, h⟩
        · exact Or.inl (hv.trans h)
        · exact Or.inr (Or.inl (hv.trans h))
        · exact Or.inr (Or.inr ⟨h0, hv.trans h⟩)

/-- C7 (amended): `verify_chain` is total and returns a structured pair for
every store state: `(false, "No blocks found")` exactly on the empty store,
`(true, none)` on a valid chain, and otherwise `(false, r)` where `r` is
`"Hash mismatch at height h"` or `"Broken link at height h"` for a stored
block of height `h`, or `"Genesis prev_hash mismatch"` for a stored block of
height 0 whose `prev_hash` is not the sentinel (the reason the claim's
enumeration omits). -/
theorem claim_C7_verify_total_result (H : String → String) (store : Store) :
    verify_chain H store = (true, Option.none) ∨
    (store = [] ∧ verify_chain H store = (false, some "No blocks found")) ∨
    ∃ b ∈ store,
      verify_chain H store =
        (false, some ("Hash mismatch at height " ++ toString b.height)) ∨
      verify_chain H store =
        (false, some ("Broken link at height " ++ toString b.height)) ∨
      (b.height = 0 ∧
        verify_chain H store = (false, some "Genesis prev_hash mismatch")) := by
  cases store with
  | nil => exact Or.inr (Or.inl ⟨rfl, rfl⟩)
  | cons b rest =>
    have hv : verify_chain H (b :: rest) =
        verifyGo H (((b :: rest).getLast (List.cons_ne_nil b rest)).hash)
          (b :: rest) := rfl
    rcases verifyGo_result H (b :: rest)
        (((b :: rest).getLast (List.cons_ne_nil b rest)).hash) with h | ⟨c, hmem, hforms⟩
    · exact Or.inl (hv.trans h)
    · refine Or.inr (Or.inr ⟨c, hmem, ?_⟩)
      rcases hforms with h | h | ⟨h0, h⟩
      · exact Or.inl (hv.trans h)
      · exact Or.inr (Or.inl (hv.trans h))
      · exact Or.inr (Or.inr ⟨h0, hv.trans h⟩)

/-- A store whose only row has height 0 but a non-sentinel `prev_hash`. -/
def badGenesisPrevStore : Store :=
  [{ height := 0, ts := 0, prev_hash := "1", hash := "h",
     event_type := "genesis", payload_json := "p" }]

/-- C7 counterexample: on a nonempty store whose first failing block is a
height-0 block with a bad sentinel, `verify_chain` returns the reason
`"Genesis prev_hash mismatch"`, which is none of the reasons the claim
enumerates (`"No blocks found"`, `"Broken link at height h"`,
`"Hash mismatch at height h"`, or `none`). -/
theorem claim_C7_counterexample :
    verify_chain (fun s => s) badGenesisPrevStore =
      (false, some "Genesis prev_hash mismatch") ∧
    badGenesisPrevStore ≠ [] ∧
    "Genesis prev_hash mismatch" ≠ "No blocks found" ∧
    "Genesis prev_hash mismatch" ≠ "Hash mismatch at height " ++ toString (0 : Nat) ∧
    "Genesis prev_hash mismatch" ≠ "Broken link at height " ++ toString (0 : Nat) := by
  refine ⟨by decide, by decide, by decide, by decide, by decide⟩

/-- A single stored field altered in the backing store: `payload_json`. -/
def setPayload (b : Block) (p : String) : Block :=
  { b with payload_json := p }

/-- A single stored field altered in the backing store: `hash`. -/
def setHash (b : Block) (h : String) : Block :=
  { b with hash := h }

/-- A single stored field altered in the backing store: `prev_hash`. -/
def setPrevHash (b : Block) (p : String) : Block :=
  { b with prev_hash := p }

/-- The stored hash the `verify_chain` loop compares row `k`'s `prev_hash`
against: the starting hash for `k = 0`, the previous row's stored hash
otherwise. -/
def prevHashAt (ph : String) (rows : List Block) (k : Nat) : String :=
  if k = 0 then ph else ((rows[k - 1]?).map Block.hash).getD ph

theorem prevHashAt_cons {ph : String} {c : Block} {rest : List Block} {k : Nat}
    (hk : k < rest.length) :
    prevHashAt ph (c :: rest) (k + 1) = prevHashAt c.hash rest k := by
  unfold prevHashAt
  cases k with
  | zero => simp
  | succ j =>
    have hj : j < rest.length := by omega
    rw [if_neg (by omega), if_neg (by omega)]
    simp only [Nat.add_sub_cancel]
    rw [List.getElem?_cons_succ]
    cases h : rest[j]? with
    | none =>
      exact absurd (List.getElem?_eq_none_iff.mp h) (by omega)
    | some q => simp [h]

theorem chainOkFrom_height {H : String → String} :
    ∀ (rows : List Block) (ph : String) (n k : Nat) (hk : k < rows.length),
      chainOkFrom H ph n rows = true → (rows.get ⟨k, hk⟩).height = n + k
  | c :: rest, ph, n, 0, hk, hc => by
    simpa using (chainOkFrom_cons.mp hc).1
  | c :: rest, ph, n, k + 1, hk, hc => by
    obtain ⟨h1, h2, h3, h4⟩ := chainOkFrom_cons.mp hc
    have hkr : k < rest.length := by simpa using hk
    have ih := chainOkFrom_height rest c.hash (n + 1) k hkr h4
    show (rest.get ⟨k, hkr⟩).height = n + (k + 1)
    omega

theorem chainOkFrom_hashAt {H : String → String} :
    ∀ (rows : List Block) (ph : String) (n k : Nat) (hk : k < rows.length),
      chainOkFrom H ph n rows = true →
        (rows.get ⟨k, hk⟩).hash = H (blockMsg (rows.get ⟨k, hk⟩))
  | c :: rest, ph, n, 0, hk, hc => (chainOkFrom_cons.mp hc).2.2.1
  | c :: rest, ph, n, k + 1, hk, hc => by
    obtain ⟨h1, h2, h3, h4⟩ := chainOkFrom_cons.mp hc
    exact chainOkFrom_hashAt rest c.hash (n + 1) k (by simpa using hk) h4

theorem chainOkFrom_prevAt {H : String → String} :
    ∀ (rows : List Block) (ph : String) (n k : Nat) (hk : k < rows.length),
      chainOkFrom H ph n rows = true →
        (rows.get ⟨k, hk⟩).prev_hash = prevHashAt ph rows k
  | c :: rest, ph, n, 0, hk, hc => (chainOkFrom_cons.mp hc).2.1
  | c :: rest, ph, n, k + 1, hk, hc => by
    obtain ⟨h1, h2, h3, h4⟩ := chainOkFrom_cons.mp hc
    have hkr : k < rest.length := by simpa using hk
    rw [prevHashAt_cons hkr]
    exact chainOkFrom_prevAt rest c.hash (n + 1) k hkr h4

theorem verifyGo_set_fail {H : String → String} :
    ∀ (rows : List Block) (k : Nat) (ph : String) (n : Nat) (b' : Block)
      (r : String), 0 < n → chainOkFrom H ph n rows = true →
      k < rows.length → checkBlock H (prevHashAt ph rows k) b' = some r →
      verifyGo H ph (rows.set k b') = (false, some r)
  | c :: rest, 0, ph, n, b', r, hn, hc, hk, hcb => by
    rw [List.set_cons_zero, verifyGo]
    rw [show prevHashAt ph (c :: rest) 0 = ph from rfl] at hcb
    rw [hcb]
  | c :: rest, k + 1, ph, n, b', r, hn, hc, hk, hcb => by
    obtain ⟨h1, h2, h3, h4⟩ := chainOkFrom_cons.mp hc
    have hkr : k < rest.length := by simpa using hk
    rw [List.set_cons_succ, verifyGo,
      checkBlock_of_ok (by omega) h2 h3]
    rw [prevHashAt_cons hkr] at hcb
    exact verifyGo_set_fail rest k c.hash (n + 1) b' r (Nat.succ_pos n) h4 hkr hcb

theorem checkBlock_genesis_prevfail {H : String → String} {ph : String}
    (b : Block) (hh : b.height = 0) (hp : b.prev_hash ≠ GENESIS_PREV_HASH) :
    checkBlock H ph b = some "Genesis prev_hash mismatch" := by
  simp only [checkBlock, if_pos hh, if_pos hp]

theorem checkBlock_genesis_hashfail {H : String → String} {ph : String}
    (b : Block) (hh : b.height = 0) (hp : b.prev_hash = GENESIS_PREV_HASH)
    (hb : H (blockMsg b) ≠ b.hash) :
    checkBlock H ph b = some ("Hash mismatch at height " ++ toString b.height) := by
  have h1 : ¬ b.prev_hash ≠ GENESIS_PREV_HASH := by simp [hp]
  have h2 : _hash_block H b.height b.ts b.prev_hash b.event_type
      b.payload_json ≠ b.hash := hb
  simp only [checkBlock, if_pos hh, if_neg h1, if_pos h2]

theorem checkBlock_link_fail {H : String → String} {ph : String} (b : Block)
    (hh : b.height ≠ 0) (hp : b.prev_hash ≠ ph) :
    checkBlock H ph b = some ("Broken link at height " ++ toString b.height) := by
  simp only [checkBlock, if_neg hh, if_pos hp]

theorem checkBlock_hash_fail {H : String → String} {ph : String} (b : Block)
    (hh : b.height ≠ 0) (hp : b.prev_hash = ph) (hb : H (blockMsg b) ≠ b.hash) :
    checkBlock H ph b = some ("Hash mismatch at height " ++ toString b.height) := by
  have h1 : ¬ b.prev_hash ≠ ph := by simp [hp]
  have h2 : _hash_block H b.height b.ts b.prev_hash b.event_type
      b.payload_json ≠ b.hash := hb
  simp only [checkBlock, if_neg hh, if_neg h1, if_pos h2]

theorem hashMsg_payload_ne {height ts : Nat} {prev event_type : String}
    {pj pj' : String} (hne : pj' ≠ pj) :
    hashMsg height ts prev event_type pj' ≠ hashMsg height ts prev event_type pj := by
  intro h
  apply hne
  unfold hashMsg at h
  have hd := congrArg String.data h
  simp only [String.data_append] at hd
  exact String.ext (List.append_cancel_left hd)

theorem verify_chain_cons {H : String → String} {b : Block} {rest : List Block} :
    verify_chain H (b :: rest) =
      verifyGo H (((b :: rest).getLast (List.cons_ne_nil b rest)).hash)
        (b :: rest) :=
  rfl

theorem verifyGo_cons_fail {H : String → String} {ph : String} {b : Block}
    {rest : List Block} {r : String} (h : checkBlock H ph b = some r) :
    verifyGo H ph (b :: rest) = (false, some r) := by
  rw [verifyGo, h]

theorem verifyGo_cons_ok {H : String → String} {ph : String} {b : Block}
    {rest : List Block} (h : checkBlock H ph b = Option.none) :
    verifyGo H ph (b :: rest) = verifyGo H b.hash rest := by
  rw [verifyGo, h]

/-- C2 (amended): on a well-formed stored chain, altering the stored
`payload_json` or `hash` of the block at position `k` (to any different
string — in particular by one byte) makes `verify_chain` report
`(false, "Hash mismatch at height k")`; altering `prev_hash` reports
`(false, "Broken link at height k")` for `k > 0` and
`(false, "Genesis prev_hash mismatch")` for the genesis block — not a
height-labelled message, the one case the claim misses; and an untouched
chain never fails: `verify_chain` returns `(true, none)` on it. The hash
alterations at `k` are reported at the altered height itself (short-circuit
never reports an earlier, untouched block). -/
theorem claim_C2_single_field_tamper (H : String → String)
    (hinj : Function.Injective H) (store : Store) (hg : goodChain H store)
    (k : Nat) (hk : k < store.length) :
    (∀ p', p' ≠ (store.get ⟨k, hk⟩).payload_json →
      verify_chain H (store.set k (setPayload (store.get ⟨k, hk⟩) p')) =
        (false, some ("Hash mismatch at height " ++
          toString (store.get ⟨k, hk⟩).height))) ∧
    (∀ h', h' ≠ (store.get ⟨k, hk⟩).hash →
      verify_chain H (store.set k (setHash (store.get ⟨k, hk⟩) h')) =
        (false, some ("Hash mismatch at height " ++
          toString (store.get ⟨k, hk⟩).height))) ∧
    (∀ q', q' ≠ (store.get ⟨k, hk⟩).prev_hash →
      verify_chain H (store.set k (setPrevHash (store.get ⟨k, hk⟩) q')) =
        (false, some (if k = 0 then "Genesis prev_hash mismatch"
          else "Broken link at height " ++
            toString (store.get ⟨k, hk⟩).height))) ∧
    verify_chain H store = (true, Option.none) := by
  obtain ⟨hne, hch⟩ := hg
  cases store with
  | nil => exact absurd rfl hne
  | cons g rest =>
  obtain ⟨hg1, hg2, hg3, hg4⟩ := chainOkFrom_cons.mp hch
  cases k with
  | zero =>
    have hgg : (g :: rest).get ⟨0, hk⟩ = g := rfl
    refine ⟨?_, ?_, ?_, verify_chain_of_goodChain ⟨hne, hch⟩⟩
    · intro p' hp'
      rw [hgg] at hp' ⊢
      have hmsg : blockMsg (setPayload g p') ≠ blockMsg g :=
        hashMsg_payload_ne hp'
      have hhash : H (blockMsg (setPayload g p')) ≠ (setPayload g p').hash := by
        intro he
        rw [show (setPayload g p').hash = g.hash from rfl, hg3] at he
        exact hmsg (hinj he)
      rw [List.set_cons_zero, verify_chain_cons,
        verifyGo_cons_fail (checkBlock_genesis_hashfail (setPayload g p')
          hg1 hg2 hhash)]
      rfl
    · intro h' hh'
      rw [hgg] at hh' ⊢
      have hhash : H (blockMsg (setHash g h')) ≠ (setHash g h').hash := by
        intro he
        exact hh' ((show h' = H (blockMsg g) from he.symm).trans hg3.symm)
      rw [List.set_cons_zero, verify_chain_cons,
        verifyGo_cons_fail (checkBlock_genesis_hashfail (setHash g h')
          hg1 hg2 hhash)]
      rfl
    · intro q' hq'
      rw [hgg] at hq' ⊢
      have hprev : (setPrevHash g q').prev_hash ≠ GENESIS_PREV_HASH := by
        rw [← hg2]; exact hq'
      rw [List.set_cons_zero, verify_chain_cons,
        verifyGo_cons_fail (checkBlock_genesis_prevfail (setPrevHash g q')
          hg1 hprev),
        if_pos rfl]
  | succ j =>
    have hkr : j < rest.length := by simpa using hk
    have hgg : (g :: rest).get ⟨j + 1, hk⟩ = rest.get ⟨j, hkr⟩ := rfl
    have hBh : (rest.get ⟨j, hkr⟩).height = 1 + j :=
      chainOkFrom_height rest g.hash 1 j hkr hg4
    have hBhash : (rest.get ⟨j, hkr⟩).hash = H (blockMsg (rest.get ⟨j, hkr⟩)) :=
      chainOkFrom_hashAt rest g.hash 1 j hkr hg4
    have hBprev : (rest.get ⟨j, hkr⟩).prev_hash = prevHashAt g.hash rest j :=
      chainOkFrom_prevAt rest g.hash 1 j hkr hg4
    have hBh0 : (rest.get ⟨j, hkr⟩).height ≠ 0 := by omega
    refine ⟨?_, ?_, ?_, verify_chain_of_goodChain ⟨hne, hch⟩⟩
    · intro p' hp'
      rw [hgg] at hp' ⊢
      have hmsg : blockMsg (setPayload (rest.get ⟨j, hkr⟩) p') ≠
          blockMsg (rest.get ⟨j, hkr⟩) :=
        hashMsg_payload_ne hp'
      have hhash : H (blockMsg (setPayload (rest.get ⟨j, hkr⟩) p')) ≠
          (setPayload (rest.get ⟨j, hkr⟩) p').hash := by
        intro he
        rw [show (setPayload (rest.get ⟨j, hkr⟩) p').hash =
          (rest.get ⟨j, hkr⟩).hash from rfl, hBhash] at he
        exact hmsg (hinj he)
      rw [List.set_cons_succ, verify_chain_cons,
        verifyGo_cons_ok (checkBlock_of_genesis_ok hg1 hg2 hg3)]
      exact verifyGo_set_fail rest j g.hash 1 _ _ Nat.one_pos hg4 hkr
        (checkBlock_hash_fail (setPayload (rest.get ⟨j, hkr⟩) p') hBh0 hBprev
          hhash)
    · intro h' hh'
      rw [hgg] at hh' ⊢
      have hhash : H (blockMsg (setHash (rest.get ⟨j, hkr⟩) h')) ≠
          (setHash (rest.get ⟨j, hkr⟩) h').hash := by
        intro he
        exact hh' ((show h' = H (blockMsg (rest.get ⟨j, hkr⟩)) from
          he.symm).trans hBhash.symm)
      rw [List.set_cons_succ, verify_chain_cons,
        verifyGo_cons_ok (checkBlock_of_genesis_ok hg1 hg2 hg3)]
      exact verifyGo_set_fail rest j g.hash 1 _ _ Nat.one_pos hg4 hkr
        (checkBlock_hash_fail (setHash (rest.get ⟨j, hkr⟩) h') hBh0 hBprev
          hhash)
    · intro q' hq'
      rw [hgg] at hq' ⊢
      have hprev : (setPrevHash (rest.get ⟨j, hkr⟩) q').prev_hash ≠
          prevHashAt g.hash rest j := by
        rw [← hBprev]; exact hq'
      rw [List.set_cons_succ, verify_chain_cons,
        verifyGo_cons_ok (checkBlock_of_genesis_ok hg1 hg2 hg3),
        if_neg (Nat.succ_ne_zero j)]
      exact verifyGo_set_fail rest j g.hash 1 _ _ Nat.one_pos hg4 hkr
        (checkBlock_link_fail (setPrevHash (rest.get ⟨j, hkr⟩) q') hBh0 hprev)

/-- A concrete well-formed two-block chain under the identity digest, used to
instantiate the tamper-detection theorem. -/
def wGenesis : Block :=
  { height := 0, ts := 7, prev_hash := GENESIS_PREV_HASH,
    hash := hashMsg 0 7 GENESIS_PREV_HASH "genesis" "pg",
    event_type := "genesis", payload_json := "pg" }

/-- The height-1 block of the concrete chain. -/
def wNext : Block :=
  { height := 1, ts := 8, prev_hash := wGenesis.hash,
    hash := hashMsg 1 8 wGenesis.hash "activity_submission" "pb",
    event_type := "activity_submission", payload_json := "pb" }

/-- The concrete chain itself. -/
def wChain : Store := [wGenesis, wNext]

/-- C2 witness: on the concrete chain, overwriting the stored hash of the
height-1 block yields `(false, "Hash mismatch at height 1")`, and the
untouched chain verifies `(true, none)`. -/
theorem claim_C2_witness :
    verify_chain (fun s => s)
      (wChain.set 1 (setHash (wChain.get ⟨1, (by decide : 1 < wChain.length)⟩)
        "zz")) =
      (false, some ("Hash mismatch at height " ++
        toString (wChain.get ⟨1, (by decide : 1 < wChain.length)⟩).height)) ∧
    verify_chain (fun s => s) wChain = (true, Option.none) :=
  ⟨(claim_C2_single_field_tamper (fun s => s) (fun a b h => h) wChain
      ⟨by decide, by decide⟩ 1 (by decide)).2.1 "zz" (by decide),
   (claim_C2_single_field_tamper (fun s => s) (fun a b h => h) wChain
      ⟨by decide, by decide⟩ 1 (by decide)).2.2.2⟩

/-- C2 counterexample: flip the first byte of the stored `prev_hash` of the
genesis block of a valid chain (`"0…0" ↦ "1 0…0"`, same length, all later
bytes unchanged). `verify_chain` then reports `"Genesis prev_hash mismatch"`,
which is neither `"Hash mismatch at height 0"` nor
`"Broken link at height 0"` — so the claim's two predicted reasons miss the
genesis `prev_hash` case. -/
theorem claim_C2_counterexample :
    goodChain (fun s => s) wChain ∧
    String.mk ('1' :: List.replicate 63 '0') ≠ wGenesis.prev_hash ∧
    (String.mk ('1' :: List.replicate 63 '0')).length =
      GENESIS_PREV_HASH.length ∧
    (String.mk ('1' :: List.replicate 63 '0')).data.drop 1 =
      GENESIS_PREV_HASH.data.drop 1 ∧
    verify_chain (fun s => s)
      (wChain.set 0 (setPrevHash wGenesis
        (String.mk ('1' :: List.replicate 63 '0')))) =
      (false, some "Genesis prev_hash mismatch") ∧
    "Genesis prev_hash mismatch" ≠
      "Hash mismatch at height " ++ toString wGenesis.height ∧
    "Genesis prev_hash mismatch" ≠
      "Broken link at height " ++ toString wGenesis.height := by
  refine ⟨⟨by decide, by decide⟩, by decide, by decide, by decide, by decide,
    by decide, by decide⟩

/-- Big-endian decimal digit characters of a natural number (the digits
`f"{n}"` interpolates). -/
def natDigits (n : Nat) : List Char :=
  if h : n < 10 then [Nat.digitChar n]
  else natDigits (n / 10) ++ [Nat.digitChar (n % 10)]
decreasing_by exact Nat.div_lt_self (by omega) (by omega)

theorem natDigits_lt {n : Nat} (h : n < 10) :
    natDigits n = [Nat.digitChar n] := by
  rw [natDigits, dif_pos h]

theorem natDigits_ge {n : Nat} (h : ¬ n < 10) :
    natDigits n = natDigits (n / 10) ++ [Nat.digitChar (n % 10)] := by
  rw [natDigits, dif_neg h]

theorem digitChar_inj_lt : ∀ a < 10, ∀ b < 10,
    Nat.digitChar a = Nat.digitChar b → a = b := by decide

theorem digitChar_ne_bar : ∀ a < 10, Nat.digitChar a ≠ '|' := by decide

theorem natDigits_ne_nil (n : Nat) : natDigits n ≠ [] := by
  rw [natDigits]
  split
  · simp
  · simp

theorem bar_not_mem_natDigits (m : Nat) : '|' ∉ natDigits m := by
  induction m using Nat.strong_induction_on with
  | _ m ih =>
    by_cases hm : m < 10
    · rw [natDigits_lt hm]
      simp only [List.mem_singleton]
      intro hc
      exact digitChar_ne_bar m hm hc.symm
    · rw [natDigits_ge hm]
      simp only [List.mem_append, List.mem_singleton]
      rintro (hc | hc)
      · exact ih (m / 10) (Nat.div_lt_self (by omega) (by omega)) hc
      · exact digitChar_ne_bar (m % 10) (Nat.mod_lt m (by omega)) hc.symm

theorem natDigits_inj (m : Nat) : ∀ (n : Nat), natDigits m = natDigits n → m = n := by
  induction m using Nat.strong_induction_on with
  | _ m ih =>
    intro n h
    by_cases hm : m < 10 <;> by_cases hn : n < 10
    · rw [natDigits_lt hm, natDigits_lt hn] at h
      exact digitChar_inj_lt m hm n hn (by simpa using h)
    · rw [natDigits_lt hm, natDigits_ge hn] at h
      have hlen := congrArg List.length h
      simp only [List.length_singleton, List.length_append] at hlen
      have h0 : (natDigits (n / 10)).length = 0 := by omega
      exact absurd (List.length_eq_zero.mp h0) (natDigits_ne_nil (n / 10))
    · rw [natDigits_ge hm, natDigits_lt hn] at h
      have hlen := congrArg List.length h
      simp only [List.length_singleton, List.length_append] at hlen
      have h0 : (natDigits (m / 10)).length = 0 := by omega
      exact absurd (List.length_eq_zero.mp h0) (natDigits_ne_nil (m / 10))
    · rw [natDigits_ge hm, natDigits_ge hn] at h
      have hrev := congrArg List.reverse h
      simp only [List.reverse_append, List.reverse_singleton,
        List.singleton_append] at hrev
      obtain ⟨hd, htl⟩ := List.cons_eq_cons.mp hrev
      have hmod : m % 10 = n % 10 :=
        digitChar_inj_lt (m % 10) (Nat.mod_lt m (by omega))
          (n % 10) (Nat.mod_lt n (by omega)) hd
      have hdiv : m / 10 = n / 10 :=
        ih (m / 10) (Nat.div_lt_self (by omega) (by omega)) (n / 10)
          (List.reverse_injective htl)
      omega

theorem toDigitsCore_eq_natDigits :
    ∀ (f n : Nat) (acc : List Char), n < f →
      Nat.toDigitsCore 10 f n acc = natDigits n ++ acc
  | 0, n, acc, h => absurd h (by omega)
  | f + 1, n, acc, h => by
    simp only [Nat.toDigitsCore]
    by_cases h0 : n / 10 = 0
    · have hn : n < 10 := by omega
      rw [if_pos h0, natDigits_lt hn, Nat.mod_eq_of_lt hn]
      simp
    · have hn : ¬ n < 10 := by omega
      have hlt : n / 10 < f := by omega
      rw [if_neg h0,
        toDigitsCore_eq_natDigits f (n / 10) (Nat.digitChar (n % 10) :: acc) hlt,
        natDigits_ge hn]
      simp

theorem natRepr_eq_natDigits (n : Nat) : Nat.repr n = String.mk (natDigits n) := by
  unfold Nat.repr Nat.toDigits
  rw [toDigitsCore_eq_natDigits (n + 1) n [] (by omega)]
  simp [List.asString]

theorem bar_not_mem_toString (m : Nat) : '|' ∉ (toString m).data := by
  rw [show toString m = Nat.repr m from rfl, natRepr_eq_natDigits]
  exact bar_not_mem_natDigits m

theorem barSplit :
    ∀ (a1 a2 r1 r2 : List Char), '|' ∉ a1 → '|' ∉ a2 →
      a1 ++ '|' :: r1 = a2 ++ '|' :: r2 → a1 = a2 ∧ r1 = r2
  | [], [], r1, r2, _, _, h => ⟨rfl, by simpa using h⟩
  | [], c :: a2, r1, r2, _, hb2, h => by
    simp only [List.nil_append, List.cons_append, List.cons_eq_cons] at h
    obtain ⟨hc, -⟩ := h
    subst hc
    exact absurd (List.mem_cons_self _ _) hb2
  | c :: a1, [], r1, r2, hb1, _, h => by
    simp only [List.nil_append, List.cons_append, List.cons_eq_cons] at h
    obtain ⟨hc, -⟩ := h
    subst hc
    exact absurd (List.mem_cons_self _ _) hb1
  | c1 :: a1, c2 :: a2, r1, r2, hb1, hb2, h => by
    simp only [List.cons_append, List.cons_eq_cons] at h
    obtain ⟨hc, ht⟩ := h
    obtain ⟨ha, hr⟩ := barSplit a1 a2 r1 r2
      (fun hm => hb1 (List.mem_cons_of_mem _ hm))
      (fun hm => hb2 (List.mem_cons_of_mem _ hm)) ht
    exact ⟨by rw [hc, ha], hr⟩

/-- C8 (amended): the `'|'`-joined pre-hash input of `_hash_block` is
injective on tuples whose `prev_hash` and `event_type` contain no `'|'`
(the decimal `height`/`ts` renderings never do; the trailing `payload_json`
may): two such tuples that differ in any field give distinct input strings.
Without the no-`'|'` restriction the construction is ambiguous (see the
counterexample). -/
theorem claim_C8_prehash_injective (h1 t1 : Nat) (p1 e1 j1 : String)
    (h2 t2 : Nat) (p2 e2 j2 : String)
    (hp1 : '|' ∉ p1.data) (he1 : '|' ∉ e1.data)
    (hp2 : '|' ∉ p2.data) (he2 : '|' ∉ e2.data)
    (heq : hashMsg h1 t1 p1 e1 j1 = hashMsg h2 t2 p2 e2 j2) :
    h1 = h2 ∧ t1 = t2 ∧ p1 = p2 ∧ e1 = e2 ∧ j1 = j2 := by
  have hd := congrArg String.data heq
  have hbar : ("|" : String).data = ['|'] := rfl
  simp only [hashMsg, String.data_append, hbar, List.append_assoc,
    List.singleton_append] at hd
  obtain ⟨d1, hd⟩ := barSplit _ _ _ _ (bar_not_mem_toString h1)
    (bar_not_mem_toString h2) hd
  obtain ⟨d2, hd⟩ := barSplit _ _ _ _ (bar_not_mem_toString t1)
    (bar_not_mem_toString t2) hd
  obtain ⟨d3, hd⟩ := barSplit _ _ _ _ hp1 hp2 hd
  obtain ⟨d4, hd⟩ := barSplit _ _ _ _ he1 he2 hd
  have hh : h1 = h2 := by
    apply natDigits_inj
    have d1' := d1
    rw [show toString h1 = Nat.repr h1 from rfl,
      show toString h2 = Nat.repr h2 from rfl,
      natRepr_eq_natDigits, natRepr_eq_natDigits] at d1'
    exact d1'
  have ht : t1 = t2 := by
    apply natDigits_inj
    have d2' := d2
    rw [show toString t1 = Nat.repr t1 from rfl,
      show toString t2 = Nat.repr t2 from rfl,
      natRepr_eq_natDigits, natRepr_eq_natDigits] at d2'
    exact d2'
  exact ⟨hh, ht, String.ext d3, String.ext d4, String.ext hd⟩

/-- C8 witness: the injectivity theorem applied at a concrete pair of equal
tuples with bar-free `prev_hash` and `event_type` (and a `payload_json` that
does contain `'|'`, which the amended claim permits). -/
theorem claim_C8_witness :
    (1 : Nat) = 1 ∧ (2 : Nat) = 2 ∧ ("ab" : String) = "ab" ∧
      ("cd" : String) = "cd" ∧ ("x|y" : String) = "x|y" :=
  claim_C8_prehash_injective 1 2 "ab" "cd" "x|y" 1 2 "ab" "cd" "x|y"
    (by decide) (by decide) (by decide) (by decide) (by decide)

/-- C8 counterexample: with a `'|'` inside `prev_hash` or `event_type` the
claimed injectivity fails — these two tuples differ in both fields yet give
the same pre-hash bytes `"0|0|a|b|c|p"`. -/
theorem claim_C8_counterexample :
    hashMsg 0 0 "a|b" "c" "p" = hashMsg 0 0 "a" "b|c" "p" ∧
    (("a|b" : String), ("c" : String)) ≠ (("a" : String), ("b|c" : String)) := by
  refine ⟨by decide, by decide⟩

/-- First binding of a key in a Python dict's entry list. -/
def lookupKey (k : String) : List (String × Json) → Option Json
  | [] => Option.none
  | (k0, v) :: t => if k0 == k then some v else lookupKey k t

mutual

/-- Deep structural equality of JSON values: object entry lists are compared
as finite maps (same size, and every binding of the left object is matched
by key in the right one, values compared deeply), so two Python dicts with
the same key-value pairs are deep-equal whatever their insertion orders. -/
def deepEq : Json → Json → Bool
  | .null, .null => true
  | .bool a, .bool b => a == b
  | .int a, .int b => a == b
  | .flt a, .flt b => a == b
  | .str a, .str b => a == b
  | .arr a, .arr b => deepEqList a b
  | .obj a, .obj b => a.length == b.length && deepEqSub a b
  | _, _ => false
termination_by structural j => j

/-- Pointwise deep equality of sequences. -/
def deepEqList : List Json → List Json → Bool
  | [], [] => true
  | x :: xs, y :: ys => deepEq x y && deepEqList xs ys
  | _, _ => false
termination_by structural l => l

/-- Every binding on the left has a deep-equal binding of the same key on
the right. -/
def deepEqSub : List (String × Json) → List (String × Json) → Bool
  | [], _ => true
  | (k, v) :: t, m =>
    (match lookupKey k m with
      | some v' => deepEq v v'
      | Option.none => false) && deepEqSub t m
termination_by structural l => l

end

/-- Keys of a dict's entry list are pairwise distinct (always true of a list
that came from a Python dict). -/
def nodupKeys : List (String × Json) → Bool
  | [] => true
  | (k, _) :: t => !(t.any (fun p => p.1 == k)) && nodupKeys t

mutual

/-- Well-formedness of a JSON value as produced by Python: every object's
keys are distinct at every nesting level. -/
def wfJson : Json → Bool
  | .arr l => wfList l
  | .obj l => nodupKeys l && wfVals l
  | _ => true
termination_by structural j => j

/-- Well-formedness of every element. -/
def wfList : List Json → Bool
  | [] => true
  | j :: t => wfJson j && wfList t
termination_by structural l => l

/-- Well-formedness of every binding's value. -/
def wfVals : List (String × Json) → Bool
  | [] => true
  | (_, v) :: t => wfJson v && wfVals t
termination_by structural l => l

end

theorem lookupKey_mem {k : String} {v : Json} :
    ∀ {m : List (String × Json)}, lookupKey k m = some v → (k, v) ∈ m
  | [], h => by simp [lookupKey] at h
  | (k0, v0) :: t, h => by
    rw [lookupKey] at h
    by_cases hk : k0 == k
    · rw [if_pos hk] at h
      cases h
      have : k0 = k := eq_of_beq hk
      subst this
      exact List.mem_cons_self _ _
    · rw [if_neg hk] at h
      exact List.mem_cons_of_mem _ (lookupKey_mem h)

theorem wfVals_mem {m : List (String × Json)} {k : String} {v : Json}
    (hw : wfVals m = true) (hm : (k, v) ∈ m) : wfJson v = true := by
  induction m with
  | nil => simp at hm
  | cons p t ih =>
    obtain ⟨p1, p2⟩ := p
    rw [wfVals, Bool.and_eq_true] at hw
    rcases List.mem_cons.mp hm with h | h
    · cases h
      exact hw.1
    · exact ih hw.2 h

theorem deepEqSub_lookup :
    ∀ {a b : List (String × Json)}, deepEqSub a b = true →
      ∀ p ∈ a, ∃ v', lookupKey p.1 b = some v' ∧ deepEq p.2 v' = true
  | [], b, _, p, hp => by simp at hp
  | (k, v) :: t, b, h, p, hp => by
    rw [deepEqSub, Bool.and_eq_true] at h
    rcases List.mem_cons.mp hp with hh | hh
    · subst hh
      obtain ⟨h1, -⟩ := h
      cases hl : lookupKey k b with
      | none => rw [hl] at h1; exact absurd h1 (by simp)
      | some v' =>
        rw [hl] at h1
        exact ⟨v', rfl, h1⟩
    · exact deepEqSub_lookup h.2 p hh

theorem nodupKeys_nodup :
    ∀ {l : List (String × Json)}, nodupKeys l = true → (l.map Prod.fst).Nodup
  | [], _ => List.nodup_nil
  | (k, v) :: t, h => by
    rw [nodupKeys, Bool.and_eq_true] at h
    rw [List.map_cons, List.nodup_cons]
    refine ⟨?_, nodupKeys_nodup h.2⟩
    intro hmem
    obtain ⟨p, hp, hpk⟩ := List.mem_map.mp hmem
    have := h.1
    rw [Bool.not_eq_true', List.any_eq_false] at this
    have h2 := this p hp
    rw [hpk] at h2
    simp at h2

theorem encPairs_map_fst :
    ∀ (l : List (String × Json)), (encPairs l).map Prod.fst = l.map Prod.fst
  | [] => rfl
  | (k, v) :: t => by
    rw [encPairs, List.map_cons, List.map_cons, encPairs_map_fst t]

theorem encPairs_length :
    ∀ (l : List (String × Json)), (encPairs l).length = l.length
  | [] => rfl
  | (k, v) :: t => by
    rw [encPairs, List.length_cons, List.length_cons, encPairs_length t]

theorem mem_encPairs :
    ∀ {l : List (String × Json)} {k : String} {v : Json}, (k, v) ∈ l →
      (k, encStr k ++ ":" ++ canonicalJsonStr v) ∈ encPairs l
  | (k0, v0) :: t, k, v, hm => by
    rcases List.mem_cons.mp hm with h | h
    · cases h
      exact List.mem_cons_self _ _
    · exact List.mem_cons_of_mem _ (mem_encPairs h)

theorem charListLe_total :
    ∀ (x y : List Char), charListLe x y = true ∨ charListLe y x = true
  | [], _ => Or.inl rfl
  | _ :: _, [] => Or.inr rfl
  | a :: as, b :: bs => by
    by_cases h1 : a < b
    · exact Or.inl (by rw [charListLe, if_pos h1])
    · by_cases h2 : b < a
      · exact Or.inr (by rw [charListLe, if_pos h2])
      · rcases charListLe_total as bs with h | h
        · exact Or.inl (by rw [charListLe, if_neg h1, if_neg h2]; exact h)
        · exact Or.inr (by rw [charListLe, if_neg h2, if_neg h1]; exact h)

theorem charListLe_trans :
    ∀ (x y z : List Char), charListLe x y = true → charListLe y z = true →
      charListLe x z = true
  | [], _, _, _, _ => rfl
  | a :: as, [], z, h1, _ => by rw [charListLe] at h1; exact absurd h1 (by simp)
  | a :: as, b :: bs, [], _, h2 => by
    rw [charListLe] at h2; exact absurd h2 (by simp)
  | a :: as, b :: bs, c :: cs, h1, h2 => by
    rw [charListLe] at h1 h2 ⊢
    by_cases hab : a < b
    · by_cases hbc : b < c
      · rw [if_pos (lt_trans hab hbc)]
      · by_cases hcb : c < b
        · rw [if_neg hbc, if_pos hcb] at h2
          exact absurd h2 (by simp)
        · have hbc' : b = c := by
            rcases lt_trichotomy b c with h | h | h
            · exact absurd h hbc
            · exact h
            · exact absurd h hcb
          subst hbc'
          rw [if_pos hab]
    · by_cases hba : b < a
      · rw [if_neg hab, if_pos hba] at h1
        exact absurd h1 (by simp)
      · have hab' : a = b := by
          rcases lt_trichotomy a b with h | h | h
          · exact absurd h hab
          · exact h
          · exact absurd h hba
        subst hab'
        rw [if_neg hab, if_neg hba] at h1
        by_cases hbc : a < c
        · rw [if_pos hbc]
        · by_cases hcb : c < a
          · rw [if_neg hbc, if_pos hcb] at h2
            exact absurd h2 (by simp)
          · rw [if_neg hbc, if_neg hcb] at h2 ⊢
            exact charListLe_trans as bs cs h1 h2

theorem charListLe_antisymm :
    ∀ (x y : List Char), charListLe x y = true → charListLe y x = true → x = y
  | [], [], _, _ => rfl
  | [], _ :: _, _, h2 => by rw [charListLe] at h2; exact absurd h2 (by simp)
  | _ :: _, [], h1, _ => by rw [charListLe] at h1; exact absurd h1 (by simp)
  | a :: as, b :: bs, h1, h2 => by
    rw [charListLe] at h1 h2
    by_cases hab : a < b
    · rw [if_pos hab] at h2
      exact absurd h2 (by rw [if_neg (lt_asymm hab)]; simp [lt_asymm hab])
    · by_cases hba : b < a
      · rw [if_neg hab, if_pos hba] at h1
        exact absurd h1 (by simp)
      · have hab' : a = b := by
          rcases lt_trichotomy a b with h | h | h
          · exact absurd h hab
          · exact h
          · exact absurd h hba
        subst hab'
        rw [if_neg hab, if_neg hba] at h1 h2
        rw [charListLe_antisymm as bs h1 h2]

theorem keyLe_total (a b : String) : keyLe a b = true ∨ keyLe b a = true :=
  charListLe_total a.data b.data

theorem keyLe_trans {a b c : String} (h1 : keyLe a b = true)
    (h2 : keyLe b c = true) : keyLe a c = true :=
  charListLe_trans a.data b.data c.data h1 h2

theorem keyLe_antisymm {a b : String} (h1 : keyLe a b = true)
    (h2 : keyLe b a = true) : a = b :=
  String.ext (charListLe_antisymm a.data b.data h1 h2)

/-- The order `sortKeyed` sorts by: comparison of raw keys. -/
def pairKeyLe (p q : String × String) : Prop :=
  keyLe p.1 q.1 = true

theorem mem_insertKeyed {p q : String × String} :
    ∀ {l : List (String × String)}, q ∈ insertKeyed p l ↔ q = p ∨ q ∈ l
  | [] => by simp [insertKeyed]
  | x :: t => by
    rw [insertKeyed]
    split
    · constructor
      · intro h
        rcases List.mem_cons.mp h with h | h
        · exact Or.inl h
        · exact Or.inr h
      · intro h
        rcases h with h | h
        · exact h ▸ List.mem_cons_self _ _
        · exact List.mem_cons_of_mem _ h
    · constructor
      · intro h
        rcases List.mem_cons.mp h with h | h
        · exact Or.inr (h ▸ List.mem_cons_self _ _)
        · rcases mem_insertKeyed.mp h with h | h
          · exact Or.inl h
          · exact Or.inr (List.mem_cons_of_mem _ h)
      · intro h
        rcases h with h | h
        · exact List.mem_cons_of_mem _ (mem_insertKeyed.mpr (Or.inl h))
        · rcases List.mem_cons.mp h with h | h
          · exact h ▸ List.mem_cons_self _ _
          · exact List.mem_cons_of_mem _ (mem_insertKeyed.mpr (Or.inr h))

theorem insertKeyed_perm (p : String × String) :
    ∀ (l : List (String × String)), (insertKeyed p l).Perm (p :: l)
  | [] => List.Perm.refl _
  | q :: t => by
    rw [insertKeyed]
    split
    · exact List.Perm.refl _
    · exact ((insertKeyed_perm p t).cons q).trans (List.Perm.swap p q t)

theorem sortKeyed_perm :
    ∀ (l : List (String × String)), (sortKeyed l).Perm l
  | [] => List.Perm.refl _
  | p :: t =>
    (insertKeyed_perm p (sortKeyed t)).trans ((sortKeyed_perm t).cons p)

theorem insertKeyed_pairwise {p : String × String} :
    ∀ {l : List (String × String)}, l.Pairwise pairKeyLe →
      (insertKeyed p l).Pairwise pairKeyLe
  | [], _ => List.pairwise_singleton _ _
  | q :: t, hl => by
    rw [insertKeyed]
    obtain ⟨hq, ht⟩ := List.pairwise_cons.mp hl
    split
    · rename_i hle
      rw [List.pairwise_cons]
      refine ⟨?_, hl⟩
      intro x hx
      rcases List.mem_cons.mp hx with h | h
      · exact h ▸ hle
      · exact keyLe_trans hle (hq x h)
    · rename_i hle
      have hqp : keyLe q.1 p.1 = true := by
        rcases keyLe_total p.1 q.1 with h | h
        · exact absurd h hle
        · exact h
      rw [List.pairwise_cons]
      refine ⟨?_, insertKeyed_pairwise ht⟩
      intro x hx
      rcases mem_insertKeyed.mp hx with h | h
      · exact h ▸ hqp
      · exact hq x h

theorem sortKeyed_pairwise :
    ∀ (l : List (String × String)), (sortKeyed l).Pairwise pairKeyLe
  | [] => List.Pairwise.nil
  | p :: t => insertKeyed_pairwise (sortKeyed_pairwise t)

theorem sorted_nodupkeys_perm_eq :
    ∀ (l l' : List (String × String)), l.Perm l' → l.Pairwise pairKeyLe →
      l'.Pairwise pairKeyLe → (l.map Prod.fst).Nodup → l = l'
  | [], l', hp, _, _, _ => hp.nil_eq
  | p :: t, [], hp, _, _, _ => by
    exact absurd hp.symm.nil_eq (by simp)
  | p :: t, q :: t', hp, hs, hs', hnd => by
    obtain ⟨hq, ht⟩ := List.pairwise_cons.mp hs
    obtain ⟨hq', ht'⟩ := List.pairwise_cons.mp hs'
    by_cases hpq : p = q
    · subst hpq
      have htp : t.Perm t' := hp.cons_inv
      rw [sorted_nodupkeys_perm_eq t t' htp ht ht'
        ((List.nodup_cons.mp (by simpa using hnd)).2)]
    · have hpmem : p ∈ q :: t' := hp.mem_iff.mp (List.mem_cons_self _ _)
      have hqmem : q ∈ p :: t := hp.mem_iff.mpr (List.mem_cons_self _ _)
      have hpt' : p ∈ t' := by
        rcases List.mem_cons.mp hpmem with h | h
        · exact absurd h hpq
        · exact h
      have hqt : q ∈ t := by
        rcases List.mem_cons.mp hqmem with h | h
        · exact absurd h.symm hpq
        · exact h
      have h1 : keyLe p.1 q.1 = true := hq q hqt
      have h2 : keyLe q.1 p.1 = true := hq' p hpt'
      have hk : p.1 = q.1 := keyLe_antisymm h1 h2
      rw [List.map_cons, List.nodup_cons] at hnd
      exact absurd (List.mem_map.mpr ⟨q, hqt, hk.symm⟩) hnd.1

mutual

theorem encode_congr : ∀ (a b : Json), deepEq a b = true → wfJson a = true →
    wfJson b = true → canonicalJsonStr a = canonicalJsonStr b
  | .null, b, hde, _, _ => by
    cases b <;> simp [deepEq] at hde
    rfl
  | .bool x, b, hde, _, _ => by
    cases b <;> simp [deepEq] at hde
    rw [hde]
  | .int x, b, hde, _, _ => by
    cases b <;> simp [deepEq] at hde
    rw [hde]
  | .flt x, b, hde, _, _ => by
    cases b <;> simp [deepEq] at hde
    rw [hde]
  | .str x, b, hde, _, _ => by
    cases b <;> simp [deepEq] at hde
    rw [hde]
  | .arr l, b, hde, hwa, hwb => by
    cases b <;> simp [deepEq] at hde
    rename_i m
    rw [wfJson] at hwa hwb
    rw [canonicalJsonStr, canonicalJsonStr, encList_congr l m hde hwa hwb]
  | .obj la, b, hde, hwa, hwb => by
    cases b <;> simp [deepEq] at hde
    rename_i lb
    obtain ⟨hlen', hsub⟩ := hde
    rw [wfJson, Bool.and_eq_true] at hwa hwb
    obtain ⟨hnda, hva⟩ := hwa
    obtain ⟨hndb, hvb⟩ := hwb
    have hsubset : ∀ p ∈ encPairs la, p ∈ encPairs lb :=
      encPairs_sub la lb hsub hva hvb
    have hnd : (encPairs la).Nodup :=
      List.Nodup.of_map Prod.fst
        (by rw [encPairs_map_fst]; exact nodupKeys_nodup hnda)
    have hsp : (encPairs la).Subperm (encPairs lb) := hnd.subperm hsubset
    have hperm : (encPairs la).Perm (encPairs lb) :=
      hsp.perm_of_length_le
        (by rw [encPairs_length, encPairs_length, hlen'])
    have hpermSorted : (sortKeyed (encPairs la)).Perm (sortKeyed (encPairs lb)) :=
      (sortKeyed_perm _).trans (hperm.trans (sortKeyed_perm _).symm)
    have hnds : ((sortKeyed (encPairs la)).map Prod.fst).Nodup := by
      have hp2 : ((sortKeyed (encPairs la)).map Prod.fst).Perm
          ((encPairs la).map Prod.fst) := (sortKeyed_perm _).map _
      exact hp2.nodup_iff.mpr
        (by rw [encPairs_map_fst]; exact nodupKeys_nodup hnda)
    have heq : sortKeyed (encPairs la) = sortKeyed (encPairs lb) :=
      sorted_nodupkeys_perm_eq _ _ hpermSorted (sortKeyed_pairwise _)
        (sortKeyed_pairwise _) hnds
    rw [canonicalJsonStr, canonicalJsonStr, heq]
termination_by structural a b hde hwa hwb => a

theorem encList_congr : ∀ (l m : List Json), deepEqList l m = true →
    wfList l = true → wfList m = true → encList l = encList m
  | [], [], _, _, _ => rfl
  | [], _ :: _, hde, _, _ => absurd hde (by simp [deepEqList])
  | _ :: _, [], hde, _, _ => absurd hde (by simp [deepEqList])
  | x :: xs, y :: ys, hde, hwl, hwm => by
    rw [deepEqList, Bool.and_eq_true] at hde
    rw [wfList, Bool.and_eq_true] at hwl hwm
    rw [encList, encList, encode_congr x y hde.1 hwl.1 hwm.1,
      encList_congr xs ys hde.2 hwl.2 hwm.2]
termination_by structural l m hde hwl hwm => l

theorem encPairs_sub : ∀ (la lb : List (String × Json)),
    deepEqSub la lb = true → wfVals la = true → wfVals lb = true →
    ∀ p ∈ encPairs la, p ∈ encPairs lb
  | [], lb, _, _, _, p, hp => by simp [encPairs] at hp
  | (k, v) :: t, lb, hde, hwa, hwb, p, hp => by
    rw [deepEqSub, Bool.and_eq_true] at hde
    rw [wfVals, Bool.and_eq_true] at hwa
    rw [encPairs] at hp
    rcases List.mem_cons.mp hp with h | h
    · subst h
      obtain ⟨h1, -⟩ := hde
      cases hl : lookupKey k lb with
      | none => rw [hl] at h1; exact absurd h1 (by simp)
      | some v' =>
        rw [hl] at h1
        have hv' : (k, v') ∈ lb := lookupKey_mem hl
        have hwv' : wfJson v' = true := wfVals_mem hwb hv'
        rw [encode_congr v v' h1 hwa.1 hwv']
        exact mem_encPairs hv'
    · exact encPairs_sub t lb hde.2 hwa.2 hwb p h
termination_by structural la lb hde hwa hwb p hp => la

end

/-- C6: the canonical encoder is order-independent. For every two
well-formed values (Python dicts have distinct keys at every level) that
are equal under deep structural equality — same key-value pairs at every
nesting level, whatever the insertion orders — `_canonical_json` produces
identical strings. (Sorted keys and the absence of insignificant whitespace
are by construction of the encoder: entries are emitted in `sortKeyed`
order joined with `","`/`":"` only.) -/
theorem claim_C6_canonical_order_independent (a b : Json)
    (hwa : wfJson a = true) (hwb : wfJson b = true)
    (hde : deepEq a b = true) :
    _canonical_json a = _canonical_json b :=
  encode_congr a b hde hwa hwb

/-- C6 witness: two nested objects with the same bindings inserted in
opposite orders at both levels encode to the same bytes. -/
theorem claim_C6_witness :
    _canonical_json (.obj [("b", .int 1),
        ("a", .obj [("y", .str "v"), ("x", .null)])]) =
      _canonical_json (.obj [("a", .obj [("x", .null), ("y", .str "v")]),
        ("b", .int 1)]) ∧
    _canonical_json (.obj [("b", .int 1),
        ("a", .obj [("y", .str "v"), ("x", .null)])]) =
      "\x7b\"a\":\x7b\"x\":null,\"y\":\"v\"\x7d,\"b\":1\x7d" :=
  ⟨claim_C6_canonical_order_independent _ _ (by decide) (by decide) (by decide),
   by decide⟩

example : _canonical_json genesisPayload =
    "\x7b\"event_type\":\"genesis\",\"note\":\"TerraQuest Ledger v1\",\"version\":1\x7d" := by
  decide

end TerraQuest
